import Mathlib

/-!
Verification development for the VidSquad repository.

The frontend sources (src/frontend/src/app/App.tsx,
src/frontend/src/services/api.ts and the InputScreen component) are embedded
directly.  The backend core components (Job Store, Stage Pipeline Executor,
Credential Pool Manager, Resilient Fetcher) are not present in the repository
— only their API documentation is — so those components are modelled from the
specification, as marked in the doc comments below.
-/

namespace VidSquad

/-! ### Frontend: duration translation in App.handleInputSubmit (App.tsx) -/

/-- Embeds the `durationMap` object literal of `App.handleInputSubmit`
(App.tsx): the four key/value pairs declared there. -/
def durationMap (d : String) : Option Nat :=
  if d = "6-9" then some 450
  else if d = "10-12" then some 660
  else if d = "18-20" then some 1140
  else if d = "30-40" then some 2100
  else none

/-- JavaScript `x || dflt` on an optional number: the default is taken when
the lookup is `undefined` (and also when the value is `0`, which is falsy). -/
def jsOrDefault (v : Option Nat) (dflt : Nat) : Nat :=
  match v with
  | some n => if n = 0 then dflt else n
  | none => dflt

/-- Embeds `const durationSeconds = durationMap[duration] || 2100` from
`App.handleInputSubmit` (App.tsx). -/
def durationSeconds (d : String) : Nat :=
  jsOrDefault (durationMap d) 2100

/-! ### Frontend: InputScreen submit guard (src/unnamed/part_001) -/

/-- `minChars` constant of `InputScreen`. -/
def minChars : Nat := 200

/-- `maxChars` constant of `InputScreen`; also the `maxLength` attribute of
the script textarea. -/
def maxChars : Nat := 5000

/-- A string consisting only of whitespace characters.  JavaScript's
`s.trim()` is the empty string — hence falsy — exactly on such strings. -/
def isAllWhitespace (s : String) : Bool :=
  s.data.all Char.isWhitespace

/-- Embeds the guard of `InputScreen.handleSubmit`:
`if (promptText.trim() && promptText.length >= 200) onSubmit(...)`.
A JavaScript string is truthy exactly when it is nonempty, so
`promptText.trim()` is truthy iff the text is not all whitespace. -/
def handleSubmitFires (promptText : String) : Bool :=
  (!isAllWhitespace promptText) && (promptText.length ≥ minChars)

/-! ### Theorems for the duration translation -/

/-- **C9.** `App.handleInputSubmit` translates the selected duration string to
seconds as '6-9' ↦ 450, '10-12' ↦ 660, '18-20' ↦ 1140, '30-40' ↦ 2100; every
other duration string silently defaults to 2100, so the duration sent to the
generate-video endpoint is always one of 450, 660, 1140, 2100. -/
theorem durationSeconds_spec :
    durationSeconds "6-9" = 450
    ∧ durationSeconds "10-12" = 660
    ∧ durationSeconds "18-20" = 1140
    ∧ durationSeconds "30-40" = 2100
    ∧ ∀ d : String,
        (d ≠ "6-9" → d ≠ "10-12" → d ≠ "18-20" → d ≠ "30-40" →
          durationSeconds d = 2100)
        ∧ (durationSeconds d = 450 ∨ durationSeconds d = 660 ∨
            durationSeconds d = 1140 ∨ durationSeconds d = 2100) := by
  refine ⟨by decide, by decide, by decide, by decide, ?_⟩
  intro d
  constructor
  · intro h1 h2 h3 h4
    simp [durationSeconds, durationMap, jsOrDefault, h1, h2, h3, h4]
  · by_cases h1 : d = "6-9"
    · subst h1; decide
    by_cases h2 : d = "10-12"
    · subst h2; decide
    by_cases h3 : d = "18-20"
    · subst h3; decide
    by_cases h4 : d = "30-40"
    · subst h4; decide
    · simp [durationSeconds, durationMap, jsOrDefault, h1, h2, h3, h4]

/-- Witness for `durationSeconds_spec` at the concrete out-of-map key "15". -/
theorem durationSeconds_spec_witness :
    durationSeconds "15" = 2100 :=
  (durationSeconds_spec.2.2.2.2 "15").1 (by decide) (by decide) (by decide)
    (by decide)

/-! ### Theorems for the InputScreen submit guard -/

/-- **C10.** `InputScreen.handleSubmit` invokes `onSubmit` exactly when the
script text is not all whitespace and has at least 200 characters; together
with the textarea's 5000-character `maxLength` cap, every script submitted
from the Generate Video button has length between 200 and 5000 inclusive. -/
theorem handleSubmitFires_spec :
    ∀ promptText : String,
      (handleSubmitFires promptText = true ↔
        (isAllWhitespace promptText = false ∧ minChars ≤ promptText.length))
      ∧ (promptText.length ≤ maxChars → handleSubmitFires promptText = true →
          200 ≤ promptText.length ∧ promptText.length ≤ 5000 ∧
            isAllWhitespace promptText = false) := by
  intro promptText
  constructor
  · simp [handleSubmitFires, minChars]
  · intro hcap hfire
    have h : isAllWhitespace promptText = false ∧
        minChars ≤ promptText.length := by
      simpa [handleSubmitFires, minChars] using hfire
    exact ⟨h.2, hcap, h.1⟩

set_option maxRecDepth 4000 in
/-- Witness for `handleSubmitFires_spec` at a concrete 200-character script. -/
theorem handleSubmitFires_spec_witness :
    200 ≤ (String.mk (List.replicate 200 'a')).length ∧
      (String.mk (List.replicate 200 'a')).length ≤ 5000 ∧
      isAllWhitespace (String.mk (List.replicate 200 'a')) = false :=
  (handleSubmitFires_spec (String.mk (List.replicate 200 'a'))).2
    (by decide) (by decide)

/-! ### Frontend: live progress channel and polling fallback
(`connectProgressWebSocket`, api.ts) -/

/-- The job-record shape delivered on the progress channel and by
`checkStatus` (api.ts): both carry the same fields. -/
structure ProgressMsg where
  status : String
  progress : Nat
  current_step : Option String
  eta_seconds : Option Nat
  error : Option String
  result : Option String
deriving DecidableEq

/-- The terminal-status test used verbatim in both the `ws.onmessage` handler
and the polling loop of `connectProgressWebSocket` (api.ts):
`status === 'completed' || status === 'failed'`. -/
def isTerminalStatus (s : String) : Bool :=
  s == "completed" || s == "failed"

/-- WebSocket client state: whether `ws.close()` has been called. -/
structure WsState where
  closedFlag : Bool
deriving DecidableEq

/-- Embeds one firing of `ws.onmessage` (api.ts): the incoming frame is
parsed (`none` models a `JSON.parse` failure, which is caught and logged,
delivering nothing), the parsed record is passed to `onUpdate`, and the
socket is closed when the record's status is `completed` or `failed`.
A closed socket delivers no further messages. -/
def wsStep (st : WsState) (msg : Option ProgressMsg) :
    WsState × Option ProgressMsg :=
  if st.closedFlag then (st, none)
  else
    match msg with
    | none => (st, none)
    | some d => (⟨isTerminalStatus d.status⟩, some d)

/-- Runs the `onmessage` handler over a stream of incoming frames, collecting
the records delivered to the `onUpdate` callback. -/
def wsRun (st : WsState) (msgs : List (Option ProgressMsg)) :
    WsState × List ProgressMsg :=
  match msgs with
  | [] => (st, [])
  | m :: rest =>
    let s1 := wsStep st m
    let s2 := wsRun s1.1 rest
    (s2.1, s1.2.toList ++ s2.2)

/-- The polling interval of the fallback loop in `connectProgressWebSocket`
(api.ts): `setInterval(..., 2000)`. -/
def POLL_INTERVAL_MS : Nat := 2000

/-- Polling-loop state: whether the interval is still installed
(`clearInterval` has not run). -/
structure PollState where
  active : Bool
deriving DecidableEq

/-- What one polling tick hands to the client's callbacks. -/
inductive PollEvent
  | update (d : ProgressMsg)
  | error (e : String)
deriving DecidableEq

/-- Embeds one tick of the polling fallback in `connectProgressWebSocket`
(api.ts): `checkStatus` either yields the job record (delivered through the
same `onUpdate` callback as the push path) or throws (delivered to
`onError`, polling continues); on a terminal status the interval is
cleared.  A cleared interval ticks no more. -/
def pollTick (st : PollState) (resp : Except String ProgressMsg) :
    PollState × Option PollEvent :=
  if st.active then
    match resp with
    | .ok d => (⟨!isTerminalStatus d.status⟩, some (.update d))
    | .error e => (st, some (.error e))
  else (st, none)

/-- Runs the polling loop over a stream of `checkStatus` outcomes, collecting
the delivered events. -/
def pollRun (st : PollState) (resps : List (Except String ProgressMsg)) :
    PollState × List PollEvent :=
  match resps with
  | [] => (st, [])
  | r :: rest =>
    let s1 := pollTick st r
    let s2 := pollRun s1.1 rest
    (s2.1, s1.2.toList ++ s2.2)

/-- Embeds the `ws.onerror` handler (api.ts): if polling is not already
running, `startPolling()` is invoked, so afterwards polling is active. -/
def handleWsError (pollingActive : Bool) : Bool :=
  if pollingActive then pollingActive else true

/-! ### Lemmas about the progress channel -/

/-- A closed socket delivers nothing and stays closed. -/
theorem wsRun_closed (msgs : List (Option ProgressMsg)) :
    wsRun ⟨true⟩ msgs = (⟨true⟩, []) := by
  induction msgs with
  | nil => rfl
  | cons m rest ih => simp [wsRun, wsStep, ih]

/-- `wsRun` splits across list append. -/
theorem wsRun_append (xs ys : List (Option ProgressMsg)) (st : WsState) :
    wsRun st (xs ++ ys) =
      ((wsRun (wsRun st xs).1 ys).1,
        (wsRun st xs).2 ++ (wsRun (wsRun st xs).1 ys).2) := by
  induction xs generalizing st with
  | nil => simp [wsRun]
  | cons m rest ih => simp [wsRun, ih]

/-- Processing a terminal record on an open socket delivers it and closes. -/
theorem wsRun_terminal_head (d : ProgressMsg) (rest : List (Option ProgressMsg))
    (hterm : isTerminalStatus d.status = true) :
    wsRun ⟨false⟩ (some d :: rest) = (⟨true⟩, [d]) := by
  simp [wsRun, wsStep, hterm, wsRun_closed]

/-! ### Theorem for the channel close-on-terminal behaviour -/

/-- **C7.** On the live progress channel, once a record with status
`completed` or `failed` arrives, everything after it is irrelevant (the
stream's tail delivers nothing and changes nothing), the WebSocket is closed,
and — when the socket was still open — the terminal record itself is the last
one handed to the `onUpdate` callback. -/
theorem ws_closes_on_terminal (pre rest : List (Option ProgressMsg))
    (d : ProgressMsg) (hterm : isTerminalStatus d.status = true) :
    wsRun ⟨false⟩ (pre ++ some d :: rest) = wsRun ⟨false⟩ (pre ++ [some d])
    ∧ (wsRun ⟨false⟩ (pre ++ some d :: rest)).1.closedFlag = true
    ∧ ((wsRun ⟨false⟩ pre).1.closedFlag = false →
        (wsRun ⟨false⟩ (pre ++ some d :: rest)).2 =
          (wsRun ⟨false⟩ pre).2 ++ [d]) := by
  have hsplit := wsRun_append pre (some d :: rest) ⟨false⟩
  have hsplit1 := wsRun_append pre [some d] ⟨false⟩
  rcases hmid : (wsRun ⟨false⟩ pre).1 with ⟨b⟩
  cases b with
  | true =>
    have h1 : wsRun (⟨true⟩ : WsState) (some d :: rest) = (⟨true⟩, []) :=
      wsRun_closed _
    have h2 : wsRun (⟨true⟩ : WsState) [some d] = (⟨true⟩, []) :=
      wsRun_closed _
    refine ⟨?_, ?_, ?_⟩
    · rw [hsplit, hsplit1, hmid, h1, h2]
    · rw [hsplit, hmid, h1]
    · intro hopen
      simp [hmid] at hopen
  | false =>
    have h1 : wsRun (⟨false⟩ : WsState) (some d :: rest) = (⟨true⟩, [d]) :=
      wsRun_terminal_head d rest hterm
    have h2 : wsRun (⟨false⟩ : WsState) [some d] = (⟨true⟩, [d]) :=
      wsRun_terminal_head d [] hterm
    refine ⟨?_, ?_, ?_⟩
    · rw [hsplit, hsplit1, hmid, h1, h2]
    · rw [hsplit, hmid, h1]
    · intro _
      rw [hsplit, hmid, h1]

/-- Witness for `ws_closes_on_terminal`: a processing record, then a
completed record, then a stray trailing record that is never delivered. -/
theorem ws_closes_on_terminal_witness :
    wsRun ⟨false⟩
        [some ⟨"processing", 40, none, none, none, none⟩,
          some ⟨"completed", 100, none, none, none, some "artifact"⟩,
          some ⟨"processing", 10, none, none, none, none⟩]
      = wsRun ⟨false⟩
          [some ⟨"processing", 40, none, none, none, none⟩,
            some ⟨"completed", 100, none, none, none, some "artifact"⟩] :=
  (ws_closes_on_terminal
    [some ⟨"processing", 40, none, none, none, none⟩]
    [some ⟨"processing", 10, none, none, none, none⟩]
    ⟨"completed", 100, none, none, none, some "artifact"⟩ (by decide)).1

/-! ### Lemmas about the polling fallback -/

/-- A cleared polling interval delivers nothing and stays cleared. -/
theorem pollRun_inactive (resps : List (Except String ProgressMsg)) :
    pollRun ⟨false⟩ resps = (⟨false⟩, []) := by
  induction resps with
  | nil => rfl
  | cons r rest ih => simp [pollRun, pollTick, ih]

/-- On the same stream of job-store records, the polling loop delivers to
`onUpdate` exactly what the WebSocket path delivers, tick for tick. -/
theorem pollRun_ok_eq_wsRun (rs : List ProgressMsg) :
    ∀ b : Bool,
      (pollRun ⟨b⟩ (rs.map Except.ok)).2 =
        (wsRun ⟨!b⟩ (rs.map some)).2.map PollEvent.update := by
  induction rs with
  | nil => intro b; rfl
  | cons d rest ih =>
    intro b
    cases b with
    | false =>
      simpa [pollRun, wsRun, pollTick, wsStep] using ih false
    | true =>
      have h := ih (!isTerminalStatus d.status)
      simpa [pollRun, wsRun, pollTick, wsStep, Bool.not_not] using h

/-! ### Theorem for the push/poll equivalence -/

/-- **C8.** The polling fallback of `connectProgressWebSocket` runs on a
2-second interval, hands every fetched job record to the same `onUpdate`
callback as the push path — so on the same stream of job-store records the
two delivery paths produce identical update sequences — the polling loop
clears its interval as soon as a record with status `completed` or `failed`
is observed (delivering nothing afterwards), and the `ws.onerror` handler
leaves polling active. -/
theorem poll_fallback_refines_push (rs : List ProgressMsg) :
    POLL_INTERVAL_MS = 2000
    ∧ (pollRun ⟨true⟩ (rs.map Except.ok)).2 =
        (wsRun ⟨false⟩ (rs.map some)).2.map PollEvent.update
    ∧ (∀ (d : ProgressMsg) (rest : List (Except String ProgressMsg)),
        isTerminalStatus d.status = true →
          pollRun ⟨true⟩ (Except.ok d :: rest) = (⟨false⟩, [.update d]))
    ∧ ∀ b : Bool, handleWsError b = true := by
  refine ⟨rfl, ?_, ?_, ?_⟩
  · simpa using pollRun_ok_eq_wsRun rs true
  · intro d rest hterm
    simp [pollRun, pollTick, hterm, pollRun_inactive]
  · intro b
    cases b <;> rfl

/-- Witness for `poll_fallback_refines_push`: a failed record clears the
polling interval and is the only event delivered. -/
theorem poll_fallback_refines_push_witness :
    pollRun ⟨true⟩
        [Except.ok ⟨"failed", 45, none, none, some "stage failure", none⟩,
          Except.ok ⟨"processing", 50, none, none, none, none⟩]
      = (⟨false⟩,
          [.update ⟨"failed", 45, none, none, some "stage failure", none⟩]) :=
  (poll_fallback_refines_push []).2.2.1
    ⟨"failed", 45, none, none, some "stage failure", none⟩
    [Except.ok ⟨"processing", 50, none, none, none, none⟩] (by decide)

/-! ### Job Store (spec §3, §4.1)

The backend implementing the Job Store is not in the repository — only its
HTTP/WebSocket documentation is — so the component is modelled from the
specification. -/

/-- Job status, spec §3: `status ∈ {queued, processing, completed, failed}`. -/
inductive JobStatus
  | queued
  | processing
  | completed
  | failed
deriving DecidableEq

/-- Spec §3: the terminal states are `completed` and `failed`. -/
def JobStatus.isTerminal : JobStatus → Bool
  | .completed => true
  | .failed => true
  | _ => false

/-- Modelled from the spec: the Job record of §3 (backend implementation
absent from the repository).  The artifact descriptor and error are opaque
strings; `completed_at` is a timestamp. -/
structure JobRecord where
  status : JobStatus
  progress : Nat
  current_step : String
  eta_seconds : Nat
  error : Option String
  result : Option String
  completed_at : Option Nat
deriving DecidableEq

/-- Modelled from the spec: Job Store `create` (§4.1) — inserts a record with
status `queued` and progress 0. -/
def create : JobRecord :=
  ⟨.queued, 0, "", 0, none, none, none⟩

/-- Modelled from the spec: Job Store `update(job_id, progress, step, eta)`
(§4.1) — rejected (no-op) if the job is in a terminal state or if
`progress < current progress`; otherwise atomically replaces
progress/step/eta. -/
def update (r : JobRecord) (progress : Nat) (step : String) (eta : Nat) :
    JobRecord :=
  if r.status.isTerminal || progress < r.progress then r
  else { r with
    progress := progress
    current_step := step
    eta_seconds := eta }

/-- Modelled from the spec: Job Store `complete(job_id, result)` (§4.1) —
sets status `completed`, progress 100, the result and `completed_at`;
rejected if already terminal. -/
def complete (r : JobRecord) (result : String) (now : Nat) : JobRecord :=
  if r.status.isTerminal then r
  else { r with
    status := .completed
    progress := 100
    result := some result
    completed_at := some now }

/-- Modelled from the spec: Job Store `fail(job_id, error)` (§4.1) — sets
status `failed`, the error and `completed_at`, progress frozen at its last
value; rejected if already terminal. -/
def fail (r : JobRecord) (error : String) (now : Nat) : JobRecord :=
  if r.status.isTerminal then r
  else { r with
    status := .failed
    error := some error
    completed_at := some now }

/-- Modelled from the spec: the Executor beginning work on a queued job
(§2 hands the record to the Executor, whose stage loop runs while
`status = processing`). -/
def start (r : JobRecord) : JobRecord :=
  if r.status = .queued then { r with status := .processing } else r

/-- One mutating Job Store operation, for reasoning about arbitrary
operation sequences on a single job's record. -/
inductive StoreOp
  | start
  | update (progress : Nat) (step : String) (eta : Nat)
  | complete (result : String) (now : Nat)
  | fail (error : String) (now : Nat)
deriving DecidableEq

/-- Applies one Job Store operation to a record. -/
def applyOp (r : JobRecord) : StoreOp → JobRecord
  | .start => start r
  | .update p s e => update r p s e
  | .complete res now => complete r res now
  | .fail err now => fail r err now

/-- Applies a sequence of Job Store operations in order (per-job
serialization, §4.1, makes any interleaving a sequence). -/
def applyOps (r : JobRecord) (ops : List StoreOp) : JobRecord :=
  ops.foldl applyOp r

/-- Spec §3 record invariant: a completed record carries a result and no
error, a failed record carries an error and no result, a non-terminal record
carries neither. -/
def wellFormed (r : JobRecord) : Prop :=
  (r.status = .completed → r.result.isSome = true ∧ r.error = none)
  ∧ (r.status = .failed → r.error.isSome = true ∧ r.result = none)
  ∧ (r.status = .queued ∨ r.status = .processing →
      r.result = none ∧ r.error = none)

/-! ### Lemmas about the Job Store -/

/-- A single `update` never decreases recorded progress. -/
theorem update_progress_le (r : JobRecord) (p : Nat) (s : String) (e : Nat) :
    r.progress ≤ (update r p s e).progress := by
  unfold update
  by_cases h : r.status.isTerminal || p < r.progress
  · simp [h]
  · simp only [h, if_false]
    have : ¬ p < r.progress := by
      intro hlt
      exact h (by simp [hlt])
    exact Nat.le_of_not_lt this

/-- Progress is monotone along any sequence of `update` calls. -/
theorem updates_progress_monotone (calls : List (Nat × String × Nat)) :
    ∀ r : JobRecord,
      r.progress ≤
        (calls.foldl (fun acc c => update acc c.1 c.2.1 c.2.2) r).progress := by
  induction calls with
  | nil => intro r; exact Nat.le_refl _
  | cons c rest ih =>
    intro r
    exact Nat.le_trans (update_progress_le r c.1 c.2.1 c.2.2)
      (ih (update r c.1 c.2.1 c.2.2))

/-! ### Theorem for update monotonicity and rejection -/

/-- **C1.** A Job Store `update` targeting a terminal record, or carrying a
progress argument below the recorded progress, is a no-op leaving the record
completely unchanged; an accepted `update` replaces exactly progress, step
and eta in one step; consequently recorded progress is monotonically
non-decreasing across any sequence of `update` calls. -/
theorem update_monotone_reject_noop (r : JobRecord) (p : Nat) (s : String)
    (e : Nat) :
    (r.status.isTerminal = true ∨ p < r.progress → update r p s e = r)
    ∧ (r.status.isTerminal = false → r.progress ≤ p →
        update r p s e =
          { r with progress := p, current_step := s, eta_seconds := e })
    ∧ r.progress ≤ (update r p s e).progress
    ∧ ∀ calls : List (Nat × String × Nat),
        r.progress ≤
          (calls.foldl (fun acc c => update acc c.1 c.2.1 c.2.2) r).progress := by
  refine ⟨?_, ?_, update_progress_le r p s e,
    fun calls => updates_progress_monotone calls r⟩
  · intro h
    unfold update
    rcases h with h | h
    · simp [h]
    · simp [h]
  · intro hterm hle
    unfold update
    simp [hterm, Nat.not_lt.mpr hle]

/-- Witness for `update_monotone_reject_noop`: a processing record at
progress 40 rejects an update to 30 and accepts an update to 60. -/
theorem update_monotone_reject_noop_witness :
    update ⟨.processing, 40, "s", 9, none, none, none⟩ 30 "back" 1
        = ⟨.processing, 40, "s", 9, none, none, none⟩
    ∧ update ⟨.processing, 40, "s", 9, none, none, none⟩ 60 "fwd" 1
        = ⟨.processing, 60, "fwd", 1, none, none, none⟩ :=
  ⟨(update_monotone_reject_noop ⟨.processing, 40, "s", 9, none, none, none⟩
      30 "back" 1).1 (Or.inr (by decide)),
    (update_monotone_reject_noop ⟨.processing, 40, "s", 9, none, none, none⟩
      60 "fwd" 1).2.1 (by decide) (by decide)⟩

/-! ### Lemmas for the terminal-state invariant -/

/-- A freshly created record is well-formed. -/
theorem wellFormed_create : wellFormed create := by
  refine ⟨?_, ?_, ?_⟩ <;> intro h <;> simp [create] at h ⊢

/-- Every Job Store operation preserves well-formedness. -/
theorem wellFormed_applyOp (r : JobRecord) (op : StoreOp)
    (hwf : wellFormed r) : wellFormed (applyOp r op) := by
  obtain ⟨hc, hf, hn⟩ := hwf
  cases op with
  | start =>
    by_cases hq : r.status = .queued
    · refine ⟨?_, ?_, ?_⟩ <;> intro h <;>
        simp [applyOp, start, hq] at h ⊢
      exact hn (Or.inl hq)
    · simpa [applyOp, start, hq] using ⟨hc, hf, hn⟩
  | update p s e =>
    by_cases hrej : r.status.isTerminal || p < r.progress
    · simpa [applyOp, update, hrej] using ⟨hc, hf, hn⟩
    · refine ⟨?_, ?_, ?_⟩ <;> intro h <;>
        simp [applyOp, update, hrej] at h ⊢
      · exact hc h
      · exact hf h
      · exact hn h
  | complete res now =>
    by_cases hterm : r.status.isTerminal = true
    · simpa [applyOp, complete, hterm] using ⟨hc, hf, hn⟩
    · have hne : r.status = .queued ∨ r.status = .processing := by
        cases h : r.status <;> simp [h, JobStatus.isTerminal] at hterm ⊢
      refine ⟨?_, ?_, ?_⟩ <;> intro h <;>
        simp [applyOp, complete, hterm] at h ⊢
      exact (hn hne).2
  | fail err now =>
    by_cases hterm : r.status.isTerminal = true
    · simpa [applyOp, fail, hterm] using ⟨hc, hf, hn⟩
    · have hne : r.status = .queued ∨ r.status = .processing := by
        cases h : r.status <;> simp [h, JobStatus.isTerminal] at hterm ⊢
      refine ⟨?_, ?_, ?_⟩ <;> intro h <;>
        simp [applyOp, fail, hterm] at h ⊢
      exact (hn hne).1

/-- Well-formedness holds after any sequence of Job Store operations. -/
theorem wellFormed_applyOps (ops : List StoreOp) :
    ∀ r : JobRecord, wellFormed r → wellFormed (applyOps r ops) := by
  induction ops with
  | nil => intro r h; exact h
  | cons op rest ih =>
    intro r h
    exact ih (applyOp r op) (wellFormed_applyOp r op h)

/-! ### Theorem for the terminal-state invariant -/

/-- **C2.** For every record reachable from creation by any sequence of Job
Store operations: completed implies a result and no error, failed implies an
error and no result, `completed` and `failed` are exactly the terminal
states, and the two cases are mutually exclusive. -/
theorem terminal_exactly_one_of_result_error (ops : List StoreOp) :
    ((applyOps create ops).status = .completed →
      (applyOps create ops).result.isSome = true ∧
        (applyOps create ops).error = none)
    ∧ ((applyOps create ops).status = .failed →
        (applyOps create ops).error.isSome = true ∧
          (applyOps create ops).result = none)
    ∧ ((applyOps create ops).status.isTerminal = true ↔
        ((applyOps create ops).status = .completed ∨
          (applyOps create ops).status = .failed))
    ∧ ¬((applyOps create ops).status = .completed ∧
        (applyOps create ops).status = .failed) := by
  obtain ⟨hc, hf, _⟩ := wellFormed_applyOps ops create wellFormed_create
  refine ⟨hc, hf, ?_, ?_⟩
  · cases h : (applyOps create ops).status <;>
      simp [JobStatus.isTerminal]
  · rintro ⟨h1, h2⟩
    rw [h1] at h2
    exact absurd h2 (by decide)

/-- Witness for `terminal_exactly_one_of_result_error`: starting, updating and
failing a job yields a failed record with an error and no result. -/
theorem terminal_exactly_one_of_result_error_witness :
    (applyOps create [.start, .update 30 "sourcing" 60, .fail "boom" 7]).error.isSome
        = true
    ∧ (applyOps create
        [.start, .update 30 "sourcing" 60, .fail "boom" 7]).result = none :=
  (terminal_exactly_one_of_result_error
    [.start, .update 30 "sourcing" 60, .fail "boom" 7]).2.1 (by decide)

/-! ### Stage Pipeline Executor (spec §3, §4.2)

Modelled from the spec: the Executor is part of the absent backend.  A stage
is a weight together with how its work turns out; the Executor advances
through the stages in order, emitting Job Store updates, failing fast on the
first stage failure and completing after the last stage. -/

/-- How a stage's work turns out: success, or failure when the stage's own
intra-stage progress counter stands at `intra` (0–100). -/
inductive StageOutcome
  | success
  | failAt (intra : Nat)
deriving DecidableEq

/-- Spec §3 weight formula:
`overall = Σ(completed_stage_weights) + weight_current_stage × (intra/100)`. -/
def overallProgress (completedSum w intra : Nat) : Nat :=
  completedSum + w * intra / 100

/-- Modelled from the spec: the Executor's stage loop (§4.2).  `acc` is the
sum of the weights of the completed stages.  Each completed stage emits an
`update` to the new overall progress; a failing stage emits the partial
update given by the weight formula and then calls `fail` — no remaining
stage executes; after the final stage the Executor calls `complete`. -/
def runStages : Nat → List (Nat × StageOutcome) → JobRecord → JobRecord
  | _, [], r => complete r "artifact" 0
  | acc, (w, .success) :: rest, r =>
      runStages (acc + w) rest (update r (acc + w) "stage complete" 0)
  | acc, (w, .failAt intra) :: _, r =>
      fail (update r (overallProgress acc w intra) "stage running" 0)
        "stage failure" 0

/-- Runs a whole pipeline on a freshly created job record. -/
def runPipeline (stages : List (Nat × StageOutcome)) : JobRecord :=
  runStages 0 stages (start create)

/-! ### Lemmas about the Executor -/

/-- Terminal records absorb every Job Store operation. -/
theorem applyOp_terminal (r : JobRecord) (op : StoreOp)
    (h : r.status.isTerminal = true) : applyOp r op = r := by
  cases op with
  | start =>
    have hq : r.status ≠ .queued := by
      intro hq; rw [hq] at h; exact absurd h (by decide)
    simp [applyOp, start, hq]
  | update p s e => simp [applyOp, update, h]
  | complete res now => simp [applyOp, complete, h]
  | fail err now => simp [applyOp, fail, h]

/-- Terminal records are left unchanged by any operation sequence. -/
theorem applyOps_terminal (ops : List StoreOp) :
    ∀ r : JobRecord, r.status.isTerminal = true → applyOps r ops = r := by
  induction ops with
  | nil => intro r _; rfl
  | cons op rest ih =>
    intro r h
    show applyOps (applyOp r op) rest = r
    rw [applyOp_terminal r op h]
    exact ih r h

/-- Running a run of successful stages followed by a failing stage, from a
processing record whose progress equals the accumulated weight, fails the
job at the weight-formula progress. -/
theorem runStages_fail (pre : List Nat) :
    ∀ (acc w intra : Nat) (rest : List (Nat × StageOutcome)) (r : JobRecord),
      r.status = .processing → r.progress = acc →
      (runStages acc
          (pre.map (fun x => (x, StageOutcome.success)) ++
            (w, .failAt intra) :: rest) r).status = .failed
      ∧ (runStages acc
          (pre.map (fun x => (x, StageOutcome.success)) ++
            (w, .failAt intra) :: rest) r).progress
          = acc + pre.sum + w * intra / 100
      ∧ (runStages acc
          (pre.map (fun x => (x, StageOutcome.success)) ++
            (w, .failAt intra) :: rest) r).error.isSome = true := by
  induction pre with
  | nil =>
    intro acc w intra rest r hst hpr
    have hterm : r.status.isTerminal = false := by rw [hst]; rfl
    have hnotlt : ¬ overallProgress acc w intra < r.progress := by
      rw [hpr]
      exact Nat.not_lt.mpr (Nat.le_add_right acc _)
    have hupd : update r (overallProgress acc w intra) "stage running" 0
        = { r with
              progress := overallProgress acc w intra
              current_step := "stage running"
              eta_seconds := 0 } := by
      unfold update
      simp [hterm, hnotlt]
    simp only [List.map_nil, List.nil_append, runStages, hupd]
    have hterm2 : ({ r with
        progress := overallProgress acc w intra
        current_step := "stage running"
        eta_seconds := 0 } : JobRecord).status.isTerminal = false := by
      simpa using hterm
    unfold fail
    simp [hterm2, overallProgress]
  | cons p ps ih =>
    intro acc w intra rest r hst hpr
    have hterm : r.status.isTerminal = false := by rw [hst]; rfl
    have hnotlt : ¬ acc + p < r.progress := by
      rw [hpr]
      exact Nat.not_lt.mpr (Nat.le_add_right acc p)
    have hupd : update r (acc + p) "stage complete" 0
        = { r with
              progress := acc + p
              current_step := "stage complete"
              eta_seconds := 0 } := by
      unfold update
      simp [hterm, hnotlt]
    simp only [List.map_cons, List.cons_append, runStages, hupd,
      List.append_eq]
    have h := ih (acc + p) w intra rest
      { r with
          progress := acc + p
          current_step := "stage complete"
          eta_seconds := 0 }
      (by simpa using hst) rfl
    refine ⟨h.1, ?_, h.2.2⟩
    rw [h.2.1, List.sum_cons]
    omega

/-! ### Theorem for the weight formula and the failing end-to-end run -/

/-- **C3.** The Executor maps stage progress to overall progress as the sum
of the completed stage weights plus the current stage's weight times its
intra-stage progress divided by 100: any run of successful stages followed by
a failing stage ends failed, with an error, at exactly that progress.  In
particular, with stage weights [10, 20, 30, 20, 20] and the third stage
failing at 50% intra-stage progress, the final record has progress 45,
status failed and a non-null error, and no subsequent Job Store operation
changes it. -/
theorem executor_weight_formula_fail_frozen :
    (∀ (pre : List Nat) (w intra : Nat) (rest : List (Nat × StageOutcome)),
      (runPipeline (pre.map (fun x => (x, StageOutcome.success)) ++
          (w, .failAt intra) :: rest)).status = .failed
      ∧ (runPipeline (pre.map (fun x => (x, StageOutcome.success)) ++
          (w, .failAt intra) :: rest)).progress
          = pre.sum + w * intra / 100
      ∧ (runPipeline (pre.map (fun x => (x, StageOutcome.success)) ++
          (w, .failAt intra) :: rest)).error.isSome = true)
    ∧ (runPipeline [(10, .success), (20, .success), (30, .failAt 50),
        (20, .success), (20, .success)]).progress = 45
    ∧ (runPipeline [(10, .success), (20, .success), (30, .failAt 50),
        (20, .success), (20, .success)]).status = .failed
    ∧ (runPipeline [(10, .success), (20, .success), (30, .failAt 50),
        (20, .success), (20, .success)]).error.isSome = true
    ∧ ∀ ops : List StoreOp,
        applyOps (runPipeline [(10, .success), (20, .success),
          (30, .failAt 50), (20, .success), (20, .success)]) ops
          = runPipeline [(10, .success), (20, .success), (30, .failAt 50),
              (20, .success), (20, .success)] := by
  have hgen : ∀ (pre : List Nat) (w intra : Nat)
      (rest : List (Nat × StageOutcome)),
      (runPipeline (pre.map (fun x => (x, StageOutcome.success)) ++
          (w, .failAt intra) :: rest)).status = .failed
      ∧ (runPipeline (pre.map (fun x => (x, StageOutcome.success)) ++
          (w, .failAt intra) :: rest)).progress
          = pre.sum + w * intra / 100
      ∧ (runPipeline (pre.map (fun x => (x, StageOutcome.success)) ++
          (w, .failAt intra) :: rest)).error.isSome = true := by
    intro pre w intra rest
    have h := runStages_fail pre 0 w intra rest (start create) (by decide) rfl
    exact ⟨h.1, by simpa using h.2.1, h.2.2⟩
  refine ⟨hgen, by decide, by decide, by decide, ?_⟩
  intro ops
  exact applyOps_terminal ops _ (by decide)

/-- Witness for `executor_weight_formula_fail_frozen`: a later `update`,
`complete` or `fail` on the failed record is a no-op. -/
theorem executor_weight_formula_fail_frozen_witness :
    applyOps (runPipeline [(10, .success), (20, .success), (30, .failAt 50),
        (20, .success), (20, .success)])
        [.update 90 "late" 1, .complete "late artifact" 9, .fail "again" 9]
      = runPipeline [(10, .success), (20, .success), (30, .failAt 50),
          (20, .success), (20, .success)] :=
  executor_weight_formula_fail_frozen.2.2.2.2
    [.update 90 "late" 1, .complete "late artifact" 9, .fail "again" 9]

/-! ### Credential Pool Manager (spec §3, §4.3)

Modelled from the spec: the Credential Pool Manager is part of the absent
backend. -/

/-- Modelled from the spec: a credential resource (§3).  `quarantined` is the
state flag; `quarantined_until` is meaningful only when it is set. -/
structure Resource where
  rid : Nat
  quarantined : Bool
  success_count : Nat
  fail_count : Nat
  consecutive_failures : Nat
  quarantined_until : Nat
  last_used_at : Nat
deriving DecidableEq

/-- Spec §3: `health_score = success_count / max(1, success_count+fail_count)`. -/
def healthScore (r : Resource) : ℚ :=
  (r.success_count : ℚ) / ((max 1 (r.success_count + r.fail_count) : Nat) : ℚ)

/-- Spec §4.3 lazy promotion: a resource counts as available when it is not
quarantined, or when its `quarantined_until` has passed — with no state
mutation required. -/
def availableAt (r : Resource) (now : Nat) : Bool :=
  !r.quarantined || decide (r.quarantined_until ≤ now)

/-- Selection order of §4.3: `c` beats the current best on a strictly higher
health score, or on an equal health score with an older `last_used_at`. -/
def betterCandidate (c best : Resource) : Bool :=
  decide (healthScore best < healthScore c) ||
    (decide (healthScore c = healthScore best) &&
      decide (c.last_used_at < best.last_used_at))

/-- Picks the best element of a candidate list (first wins remaining ties). -/
def pickBest : List Resource → Option Resource
  | [] => none
  | r :: rs =>
      some (rs.foldl (fun best c => if betterCandidate c best then c else best) r)

/-- Modelled from the spec: `select()` (§4.3) — from the resources available
at `now` (after lazy promotion), pick the one with the highest health score,
ties broken by least-recently-used; `none` models `PoolExhausted`. -/
def select (pool : List Resource) (now : Nat) : Option Resource :=
  pickBest (pool.filter (fun r => availableAt r now))

/-- Pool configuration of §4.3/§9: quarantine thresholds and cooldown are
tunable parameters. -/
structure PoolConfig where
  maxConsecutiveFailures : Nat
  minSuccessRate : ℚ
  cooldown : Nat
deriving DecidableEq

/-- Modelled from the spec: `record_success(resource_id)` (§4.3) on one
resource — increments `success_count`, updates `last_used_at`. -/
def recordSuccess (now : Nat) (r : Resource) : Resource :=
  { r with
    success_count := r.success_count + 1
    consecutive_failures := 0
    last_used_at := now }

/-- Modelled from the spec: `record_failure(resource_id)` (§4.3) on one
resource — increments `fail_count`; quarantines with
`quarantined_until = now + cooldown` when the success rate drops below the
configured threshold or the consecutive-failure count exceeds the
configured limit. -/
def recordFailure (cfg : PoolConfig) (now : Nat) (r : Resource) : Resource :=
  let r1 := { r with
    fail_count := r.fail_count + 1
    consecutive_failures := r.consecutive_failures + 1
    last_used_at := now }
  if healthScore r1 < cfg.minSuccessRate ||
      cfg.maxConsecutiveFailures < r1.consecutive_failures then
    { r1 with
      quarantined := true
      quarantined_until := now + cfg.cooldown }
  else r1

/-- Applies `record_success` to the named resource of a pool. -/
def poolRecordSuccess (now : Nat) (i : Nat) (pool : List Resource) :
    List Resource :=
  pool.map (fun r => if r.rid = i then recordSuccess now r else r)

/-- Applies `record_failure` to the named resource of a pool. -/
def poolRecordFailure (cfg : PoolConfig) (now : Nat) (i : Nat)
    (pool : List Resource) : List Resource :=
  pool.map (fun r => if r.rid = i then recordFailure cfg now r else r)

/-! ### Theorem for selection order -/

/-- **C5.** Between two available resources, `select` deterministically
returns the one with the strictly higher health score — in particular it
prefers success/fail counts (9,1) over (1,1) — and on equal health scores it
returns the one with the older `last_used_at`. -/
theorem select_prefers_healthier_then_lru (r1 r2 : Resource) (now : Nat)
    (h1 : availableAt r1 now = true) (h2 : availableAt r2 now = true) :
    (healthScore r2 < healthScore r1 → select [r1, r2] now = some r1)
    ∧ (healthScore r1 < healthScore r2 → select [r1, r2] now = some r2)
    ∧ (healthScore r1 = healthScore r2 → r1.last_used_at < r2.last_used_at →
        select [r1, r2] now = some r1)
    ∧ (healthScore r1 = healthScore r2 → r2.last_used_at < r1.last_used_at →
        select [r1, r2] now = some r2)
    ∧ (r1.success_count = 9 → r1.fail_count = 1 → r2.success_count = 1 →
        r2.fail_count = 1 → select [r1, r2] now = some r1) := by
  have hsel : select [r1, r2] now =
      some (if betterCandidate r2 r1 then r2 else r1) := by
    simp [select, pickBest, List.filter, h1, h2]
  have hscore : ∀ a b : Resource, a.success_count = 9 → a.fail_count = 1 →
      b.success_count = 1 → b.fail_count = 1 →
      healthScore b < healthScore a := by
    intro a b ha haf hb hbf
    rw [healthScore, healthScore, ha, haf, hb, hbf]
    norm_num
  refine ⟨?_, ?_, ?_, ?_, ?_⟩
  · intro hlt
    have hb : betterCandidate r2 r1 = false := by
      simp [betterCandidate, not_lt_of_gt hlt, ne_of_lt hlt]
    rw [hsel, hb]
    simp
  · intro hlt
    have hb : betterCandidate r2 r1 = true := by
      simp [betterCandidate, hlt]
    rw [hsel, hb]
    simp
  · intro heq hlu
    have hb : betterCandidate r2 r1 = false := by
      simp [betterCandidate, heq.symm, Nat.not_lt.mpr (Nat.le_of_lt hlu)]
    rw [hsel, hb]
    simp
  · intro heq hlu
    have hb : betterCandidate r2 r1 = true := by
      simp [betterCandidate, heq.symm, hlu]
    rw [hsel, hb]
    simp
  · intro ha haf hb hbf
    have hlt := hscore r1 r2 ha haf hb hbf
    have hb : betterCandidate r2 r1 = false := by
      simp [betterCandidate, not_lt_of_gt hlt, ne_of_lt hlt]
    rw [hsel, hb]
    simp

/-- Witness for `select_prefers_healthier_then_lru` at concrete resources
with counts (9,1) and (1,1). -/
theorem select_prefers_healthier_then_lru_witness :
    select [⟨1, false, 9, 1, 0, 0, 5⟩, ⟨2, false, 1, 1, 0, 0, 3⟩] 0
      = some ⟨1, false, 9, 1, 0, 0, 5⟩ :=
  (select_prefers_healthier_then_lru ⟨1, false, 9, 1, 0, 0, 5⟩
    ⟨2, false, 1, 1, 0, 0, 3⟩ 0 (by decide) (by decide)).2.2.2.2
    rfl rfl rfl rfl

/-! ### Theorem for the quarantine window -/

/-- **C6.** A resource quarantined at time `t` with cooldown `c` (so
`quarantined_until = t + c`) is excluded from selection at every instant in
`[t, t+c)` and is treated as available again — selectable from a
singleton pool with no state change — at every instant at or after `t+c`. -/
theorem quarantine_window (r : Resource) (t c : Nat)
    (hq : r.quarantined = true) (hu : r.quarantined_until = t + c) :
    (∀ now : Nat, t ≤ now → now < t + c →
      availableAt r now = false ∧ select [r] now = none)
    ∧ (∀ now : Nat, t + c ≤ now →
        availableAt r now = true ∧ select [r] now = some r) := by
  constructor
  · intro now _ hlt
    have hav : availableAt r now = false := by
      simp [availableAt, hq, hu]
      omega
    exact ⟨hav, by simp [select, List.filter, hav, pickBest]⟩
  · intro now hle
    have hav : availableAt r now = true := by
      simp [availableAt, hq, hu]
      omega
    exact ⟨hav, by simp [select, List.filter, hav, pickBest]⟩

/-- Witness for `quarantine_window`: a resource quarantined at time 10 with
cooldown 5 is excluded at time 12 and selectable again at time 15. -/
theorem quarantine_window_witness :
    select [⟨1, true, 3, 7, 4, 15, 2⟩] 12 = none
    ∧ select [⟨1, true, 3, 7, 4, 15, 2⟩] 15 = some ⟨1, true, 3, 7, 4, 15, 2⟩ :=
  ⟨((quarantine_window ⟨1, true, 3, 7, 4, 15, 2⟩ 10 5 rfl rfl).1 12
      (by decide) (by decide)).2,
    ((quarantine_window ⟨1, true, 3, 7, 4, 15, 2⟩ 10 5 rfl rfl).2 15
      (by decide)).2⟩

/-! ### Resilient Fetcher (spec §4.4)

Modelled from the spec: the Resilient Fetcher is part of the absent backend.
One external attempt's outcome is a function of the credential resource
used; the fetch loop is structurally recursive on the remaining attempt
budget, so it terminates on every input. -/

/-- Classified outcome of one external attempt (§4.4 step 3). -/
inductive AttemptOutcome
  | success (payload : String)
  | credFailure
  | nonCredFailure (e : String)
deriving DecidableEq

/-- Result of a `fetch` call (§4.4, §7). -/
inductive FetchResult
  | payload (p : String)
  | fetchFailure
  | poolExhausted
  | nonCredAbort (e : String)
deriving DecidableEq

/-- Modelled from the spec: the rotation loop of `fetch` (§4.4).  `k` is the
remaining attempt budget; `candidates` is the working view of the pool from
which each selection is made — a credential that produced a
credential-attributable failure in this call is dropped from it, per §4.4's
"continue loop with a different resource", while the bookkeeping
(`record_failure` / `record_success`) is applied to the pool itself.
Returns the result, the updated pool, and the trace of selected resource
ids. -/
def fetchGo (cfg : PoolConfig) (attempt : Resource → AttemptOutcome)
    (now : Nat) :
    Nat → List Resource → List Resource →
      FetchResult × List Resource × List Nat
  | 0, pool, _ => (.fetchFailure, pool, [])
  | k + 1, pool, candidates =>
    match select candidates now with
    | none => (.poolExhausted, pool, [])
    | some r =>
      match attempt r with
      | .success p => (.payload p, poolRecordSuccess now r.rid pool, [r.rid])
      | .nonCredFailure e => (.nonCredAbort e, pool, [r.rid])
      | .credFailure =>
        let next := fetchGo cfg attempt now k
          (poolRecordFailure cfg now r.rid pool)
          (candidates.eraseP (fun x => x.rid == r.rid))
        (next.1, next.2.1, r.rid :: next.2.2)

/-- Modelled from the spec: `fetch(target, max_attempts)` (§4.4), the target
having been absorbed into `attempt`. -/
def fetch (cfg : PoolConfig) (attempt : Resource → AttemptOutcome)
    (now : Nat) (pool : List Resource) (maxAttempts : Nat) :
    FetchResult × List Resource × List Nat :=
  fetchGo cfg attempt now maxAttempts pool pool

/-! ### Lemmas about selection and the fetch loop -/

/-- The best-of fold stays inside its candidate set. -/
theorem foldl_better_mem (l : List Resource) :
    ∀ a : Resource,
      l.foldl (fun best c => if betterCandidate c best then c else best) a
        ∈ a :: l := by
  induction l with
  | nil => intro a; simp
  | cons c t ih =>
    intro a
    have h := ih (if betterCandidate c a then c else a)
    rcases List.mem_cons.mp h with h' | h'
    · by_cases hb : betterCandidate c a = true
      · rw [List.foldl_cons]
        rw [h']
        simp [hb]
      · rw [List.foldl_cons]
        rw [h']
        simp [Bool.of_not_eq_true hb]
    · rw [List.foldl_cons]
      right
      right
      exact h'

/-- A selected resource belongs to the pool it was selected from. -/
theorem select_mem (pool : List Resource) (now : Nat) (r : Resource)
    (h : select pool now = some r) : r ∈ pool := by
  unfold select pickBest at h
  rcases hf : pool.filter (fun x => availableAt x now) with _ | ⟨a, rest⟩
  · rw [hf] at h; exact absurd h (by simp)
  · rw [hf] at h
    have hr : r ∈ a :: rest := by
      have := foldl_better_mem rest a
      simpa [← Option.some_inj.mp h] using this
    have : r ∈ pool.filter (fun x => availableAt x now) := hf ▸ hr
    exact List.mem_of_mem_filter this

/-- A nonempty, fully available candidate list always yields a selection. -/
theorem select_isSome (pool : List Resource) (now : Nat)
    (havail : ∀ r ∈ pool, availableAt r now = true) (hne : pool ≠ []) :
    ∃ r, select pool now = some r := by
  have hfil : pool.filter (fun x => availableAt x now) = pool :=
    List.filter_eq_self.mpr havail
  unfold select
  rw [hfil]
  rcases pool with _ | ⟨a, rest⟩
  · exact absurd rfl hne
  · exact ⟨_, rfl⟩

/-- After erasing the entry carrying a given id from a list with pairwise
distinct ids, no remaining entry carries that id. -/
theorem eraseP_rid_ne (i : Nat) :
    ∀ l : List Resource, (l.map Resource.rid).Nodup →
      ∀ y ∈ l.eraseP (fun x => x.rid == i), y.rid ≠ i := by
  intro l
  induction l with
  | nil => intro _ y hy; simp [List.eraseP] at hy
  | cons a t ih =>
    intro hnodup y hy
    rw [List.map_cons, List.nodup_cons] at hnodup
    by_cases ha : a.rid = i
    · have hpa : (a.rid == i) = true := by simp [ha]
      simp only [List.eraseP_cons, hpa, cond_true] at hy
      intro hyi
      exact hnodup.1 (ha ▸ List.mem_map.mpr ⟨y, hy, hyi⟩)
    · have hpa : (a.rid == i) = false := by simp [ha]
      simp only [List.eraseP_cons, hpa, cond_false] at hy
      rcases List.mem_cons.mp hy with h | h
      · rw [h]; exact ha
      · exact ih hnodup.2 y h

/-- When every attempt is a credential-attributable failure, the fetch loop
spends its whole budget on pairwise distinct credentials from the candidate
list and ends in `fetchFailure`. -/
theorem fetchGo_allfail (cfg : PoolConfig)
    (attempt : Resource → AttemptOutcome) (now : Nat)
    (hall : ∀ r, attempt r = .credFailure) :
    ∀ (k : Nat) (cands pool : List Resource),
      (∀ r ∈ cands, availableAt r now = true) →
      (cands.map Resource.rid).Nodup →
      k ≤ cands.length →
      (fetchGo cfg attempt now k pool cands).1 = .fetchFailure
      ∧ (fetchGo cfg attempt now k pool cands).2.2.length = k
      ∧ (fetchGo cfg attempt now k pool cands).2.2.Nodup
      ∧ ∀ i ∈ (fetchGo cfg attempt now k pool cands).2.2,
          i ∈ cands.map Resource.rid := by
  intro k
  induction k with
  | zero =>
    intro cands pool _ _ _
    refine ⟨rfl, rfl, List.nodup_nil, ?_⟩
    intro i hi
    exact absurd hi (by simp [fetchGo])
  | succ k ih =>
    intro cands pool havail hnodup hlen
    have hne : cands ≠ [] := by
      intro h
      rw [h] at hlen
      exact absurd hlen (by simp)
    obtain ⟨r, hsel⟩ := select_isSome cands now havail hne
    have hrmem : r ∈ cands := select_mem cands now r hsel
    have hstep : fetchGo cfg attempt now (k + 1) pool cands =
        ((fetchGo cfg attempt now k (poolRecordFailure cfg now r.rid pool)
            (cands.eraseP (fun x => x.rid == r.rid))).1,
          (fetchGo cfg attempt now k (poolRecordFailure cfg now r.rid pool)
            (cands.eraseP (fun x => x.rid == r.rid))).2.1,
          r.rid :: (fetchGo cfg attempt now k
            (poolRecordFailure cfg now r.rid pool)
            (cands.eraseP (fun x => x.rid == r.rid))).2.2) := by
      rw [fetchGo, hsel]
      simp only [hall]
    have hsub : List.Sublist (cands.eraseP (fun x => x.rid == r.rid)) cands :=
      List.eraseP_sublist cands
    have havail' : ∀ x ∈ cands.eraseP (fun x => x.rid == r.rid),
        availableAt x now = true :=
      fun x hx => havail x (hsub.subset hx)
    have hnodup' :
        ((cands.eraseP (fun x => x.rid == r.rid)).map Resource.rid).Nodup :=
      hnodup.sublist (hsub.map Resource.rid)
    have hlen' : k ≤ (cands.eraseP (fun x => x.rid == r.rid)).length := by
      have := List.length_eraseP_of_mem (p := fun x => x.rid == r.rid)
        hrmem (by simp)
      omega
    have hIH := ih (cands.eraseP (fun x => x.rid == r.rid))
      (poolRecordFailure cfg now r.rid pool) havail' hnodup' hlen'
    rw [hstep]
    refine ⟨hIH.1, ?_, ?_, ?_⟩
    · simp [hIH.2.1]
    · refine List.nodup_cons.mpr ⟨?_, hIH.2.2.1⟩
      intro hmem
      obtain ⟨y, hy, hyrid⟩ := List.mem_map.mp (hIH.2.2.2 r.rid hmem)
      exact eraseP_rid_ne r.rid cands hnodup y hy hyrid
    · intro i hi
      rcases List.mem_cons.mp hi with h | h
      · rw [h]
        exact List.mem_map.mpr ⟨r, hrmem, rfl⟩
      · obtain ⟨y, hy, hyrid⟩ := List.mem_map.mp (hIH.2.2.2 i h)
        exact List.mem_map.mpr ⟨y, hsub.subset hy, hyrid⟩

/-! ### Theorem for rotation exhaustion -/

/-- **C4.** Against a pool of pairwise-distinct, available credentials that
all produce credential-attributable failures, a single `fetch` call makes at
most pool-size many credential-attributable attempts — exactly
`maxAttempts`, each on a distinct credential — and returns `FetchFailure`.
The loop is structurally recursive on the attempt budget, so the call
terminates on every input. -/
theorem fetch_bounded_rotation (cfg : PoolConfig)
    (attempt : Resource → AttemptOutcome) (now : Nat) (pool : List Resource)
    (maxAttempts : Nat)
    (hall : ∀ r, attempt r = .credFailure)
    (havail : ∀ r ∈ pool, availableAt r now = true)
    (hnodup : (pool.map Resource.rid).Nodup)
    (hk : maxAttempts ≤ pool.length) :
    (fetch cfg attempt now pool maxAttempts).1 = .fetchFailure
    ∧ (fetch cfg attempt now pool maxAttempts).2.2.length = maxAttempts
    ∧ (fetch cfg attempt now pool maxAttempts).2.2.length ≤ pool.length
    ∧ (fetch cfg attempt now pool maxAttempts).2.2.Nodup
    ∧ ∀ i ∈ (fetch cfg attempt now pool maxAttempts).2.2,
        i ∈ pool.map Resource.rid := by
  have h := fetchGo_allfail cfg attempt now hall maxAttempts pool pool
    havail hnodup hk
  have hfe : fetch cfg attempt now pool maxAttempts =
      fetchGo cfg attempt now maxAttempts pool pool := rfl
  rw [hfe]
  exact ⟨h.1, h.2.1, by rw [h.2.1]; exact hk, h.2.2.1, h.2.2.2⟩

/-- Witness for `fetch_bounded_rotation`: a two-credential pool where every
attempt is blocked spends both attempts on distinct credentials and reports
`FetchFailure`. -/
theorem fetch_bounded_rotation_witness :
    (fetch ⟨3, 1 / 2, 60⟩ (fun _ => .credFailure) 0
        [⟨1, false, 5, 0, 0, 0, 1⟩, ⟨2, false, 4, 0, 0, 0, 2⟩] 2).1
      = .fetchFailure
    ∧ (fetch ⟨3, 1 / 2, 60⟩ (fun _ => .credFailure) 0
        [⟨1, false, 5, 0, 0, 0, 1⟩, ⟨2, false, 4, 0, 0, 0, 2⟩] 2).2.2.length
      = 2
    ∧ (fetch ⟨3, 1 / 2, 60⟩ (fun _ => .credFailure) 0
        [⟨1, false, 5, 0, 0, 0, 1⟩, ⟨2, false, 4, 0, 0, 0, 2⟩] 2).2.2.Nodup := by
  have h := fetch_bounded_rotation ⟨3, 1 / 2, 60⟩ (fun _ => .credFailure) 0
    [⟨1, false, 5, 0, 0, 0, 1⟩, ⟨2, false, 4, 0, 0, 0, 2⟩] 2
    (fun _ => rfl) (by decide) (by decide) (by decide)
  exact ⟨h.1, h.2.1, h.2.2.2.1⟩

end VidSquad
